import Mathlib

/-!
# Ontario residency tracker — verification of the window-accounting core

Shallow embedding of the computational core of the repository:

* `calculate_days_for_date` (src/new.py, `calculate_days_for_date`): the
  two-year-window presence/absence accounting over a list of absence trips;
* the module-level trend-scan loop of src/new.py (chart-data generation and
  threshold-crossing detection), modelled as `scan`;
* `add_trip` (src/1.py): host-side interval validation.

Dates are modelled as proleptic-Gregorian `(year, month, day)` triples, with
`toOrdinal` the day count matching Python's `date.toordinal` (days since
0001-01-01 = 1).  Python's `date` total order coincides with the order of
`toordinal` values, which is how comparisons are modelled here.  Python bounds
years to 1..9999; the model uses the unbounded proleptic calendar (year ≥ 1),
which agrees with Python on the whole representable range.
-/

/-- Leap-year test of the proleptic Gregorian calendar, as in Python's
`calendar.isleap` (used implicitly by `datetime.date` validation). -/
def isLeapYear (y : Nat) : Bool :=
  y % 4 == 0 && (y % 100 != 0 || y % 400 == 0)

/-- Number of days in month `m` of year `y` (Python `calendar.monthrange`
semantics; months outside 1..12 are never used on valid dates). -/
def daysInMonth (y m : Nat) : Nat :=
  if m = 2 then (if isLeapYear y then 29 else 28)
  else if m = 4 ∨ m = 6 ∨ m = 9 ∨ m = 11 then 30
  else 31

/-- A calendar date, as Python's `datetime.date`. -/
structure Date where
  year : Nat
  month : Nat
  day : Nat
deriving DecidableEq, Repr

/-- Validity of a date: what Python's `date` constructor enforces (minus the
9999 upper year bound, see module docstring). -/
def Date.isValid (d : Date) : Prop :=
  1 ≤ d.year ∧ 1 ≤ d.month ∧ d.month ≤ 12 ∧ 1 ≤ d.day ∧ d.day ≤ daysInMonth d.year d.month

instance (d : Date) : Decidable d.isValid := by
  unfold Date.isValid; infer_instance

/-- Days in all months strictly before month `m` of a common (non-leap) year,
as Python's `datetime._days_before_month` cumulative table. -/
def daysBeforeMonthCommon : Nat → Nat
  | 1 => 0 | 2 => 31 | 3 => 59 | 4 => 90 | 5 => 120 | 6 => 151
  | 7 => 181 | 8 => 212 | 9 => 243 | 10 => 273 | 11 => 304 | 12 => 334
  | _ => 0

/-- Days in all months of year `y` strictly before month `m`. -/
def daysBeforeMonth (y m : Nat) : Nat :=
  daysBeforeMonthCommon m + (if 2 < m ∧ isLeapYear y then 1 else 0)

/-- Days in all years strictly before year `y`
(Python `datetime._days_before_year`). -/
def daysBeforeYear (y : Nat) : Nat :=
  365 * (y - 1) + (y - 1) / 4 - (y - 1) / 100 + (y - 1) / 400

/-- Python's `date.toordinal`: day number counting 0001-01-01 as day 1. -/
def toOrdinal (d : Date) : Nat :=
  daysBeforeYear d.year + daysBeforeMonth d.year d.month + d.day

/-- `(a - b).days` on Python dates. -/
def dateSub (a b : Date) : Int :=
  (toOrdinal a : Int) - (toOrdinal b : Int)

/-- Python `max(a, b)` on dates: returns `b` exactly when `b > a`. -/
def dateMax (a b : Date) : Date :=
  if toOrdinal a < toOrdinal b then b else a

/-- Python `min(a, b)` on dates: returns `b` exactly when `b < a`. -/
def dateMin (a b : Date) : Date :=
  if toOrdinal b < toOrdinal a then b else a

/-- The calendar day after `d` (what advancing a daily `pd.date_range` does). -/
def nextDay (d : Date) : Date :=
  if d.day < daysInMonth d.year d.month then ⟨d.year, d.month, d.day + 1⟩
  else if d.month < 12 then ⟨d.year, d.month + 1, 1⟩
  else ⟨d.year + 1, 1, 1⟩

/-- The calendar day before `d` (one step of `d - datetime.timedelta(days=n)`). -/
def prevDay (d : Date) : Date :=
  if 1 < d.day then ⟨d.year, d.month, d.day - 1⟩
  else if 1 < d.month then ⟨d.year, d.month - 1, daysInMonth d.year (d.month - 1)⟩
  else ⟨d.year - 1, 12, 31⟩

/-- `d - datetime.timedelta(days=n)`. -/
def subDays (d : Date) : Nat → Date
  | 0 => d
  | n + 1 => subDays (prevDay d) n

/-- The list of `n` consecutive calendar dates starting at `s`: the semantics
of `pd.date_range(start=s, end=s+(n-1) days)` with the default daily frequency. -/
def dateRangeList (s : Date) : Nat → List Date
  | 0 => []
  | n + 1 => s :: dateRangeList (nextDay s) n

-- Basic calendar lemmas --------------------------------------------------

theorem isLeapYear_iff (y : Nat) :
    isLeapYear y = true ↔ (4 ∣ y ∧ (¬ 100 ∣ y ∨ 400 ∣ y)) := by
  simp [isLeapYear, Nat.dvd_iff_mod_eq_zero, Bool.and_eq_true, Bool.or_eq_true]

theorem daysInMonth_pos (y m : Nat) : 1 ≤ daysInMonth y m := by
  unfold daysInMonth
  split
  · split <;> omega
  · split <;> omega

theorem daysBeforeYear_succ (y : Nat) (hy : 1 ≤ y) :
    daysBeforeYear (y + 1) =
      daysBeforeYear y + 365 + (if isLeapYear y then 1 else 0) := by
  obtain ⟨n, rfl⟩ : ∃ n, y = n + 1 := ⟨y - 1, by omega⟩
  have h4 := Nat.succ_div n 4
  have h100 := Nat.succ_div n 100
  have h400 := Nat.succ_div n 400
  have h41 : n / 100 ≤ n / 4 := Nat.div_le_div_left (by omega) (by omega)
  have h1001 : n / 400 ≤ n / 100 := Nat.div_le_div_left (by omega) (by omega)
  have hd1 : 100 ∣ n + 1 → 4 ∣ n + 1 := fun h => dvd_trans (by norm_num) h
  have hd2 : 400 ∣ n + 1 → 100 ∣ n + 1 := fun h => dvd_trans (by norm_num) h
  have hleap := isLeapYear_iff (n + 1)
  unfold daysBeforeYear
  simp only [Nat.add_sub_cancel]
  by_cases c100 : 100 ∣ n + 1
  · by_cases c400 : 400 ∣ n + 1
    · have c4 := hd1 c100
      have hb : isLeapYear (n + 1) = true := hleap.mpr ⟨c4, Or.inr c400⟩
      rw [if_pos c4] at h4; rw [if_pos c100] at h100; rw [if_pos c400] at h400
      rw [if_pos hb]; omega
    · have c4 := hd1 c100
      have hb : ¬ isLeapYear (n + 1) = true := by
        intro h
        rcases (hleap.mp h).2 with h' | h'
        · exact h' c100
        · exact c400 h'
      rw [if_pos c4] at h4; rw [if_pos c100] at h100; rw [if_neg c400] at h400
      rw [if_neg hb]; omega
  · have c400 : ¬ 400 ∣ n + 1 := fun h => c100 (hd2 h)
    by_cases c4 : 4 ∣ n + 1
    · have hb : isLeapYear (n + 1) = true := hleap.mpr ⟨c4, Or.inl c100⟩
      rw [if_pos c4] at h4; rw [if_neg c100] at h100; rw [if_neg c400] at h400
      rw [if_pos hb]; omega
    · have hb : ¬ isLeapYear (n + 1) = true := fun h => c4 (hleap.mp h).1
      rw [if_neg c4] at h4; rw [if_neg c100] at h100; rw [if_neg c400] at h400
      rw [if_neg hb]; omega

theorem daysBeforeMonth_step (y m : Nat) (h1 : 1 ≤ m) (h2 : m ≤ 11) :
    daysBeforeMonth y (m + 1) = daysBeforeMonth y m + daysInMonth y m := by
  rcases Bool.eq_false_or_eq_true (isLeapYear y) with hb | hb <;>
    interval_cases m <;>
      simp [daysBeforeMonth, daysBeforeMonthCommon, daysInMonth, hb]

theorem toOrdinal_mk (y m dd : Nat) :
    toOrdinal ⟨y, m, dd⟩ = daysBeforeYear y + daysBeforeMonth y m + dd := rfl

theorem isValid_mk (y m dd : Nat) :
    (Date.mk y m dd).isValid ↔
      (1 ≤ y ∧ 1 ≤ m ∧ m ≤ 12 ∧ 1 ≤ dd ∧ dd ≤ daysInMonth y m) := Iff.rfl

theorem daysBeforeMonth_one (y : Nat) : daysBeforeMonth y 1 = 0 := by
  unfold daysBeforeMonth
  rw [if_neg (fun h => absurd h.1 (by decide))]
  decide

theorem daysBeforeMonth_twelve (y : Nat) :
    daysBeforeMonth y 12 = 334 + (if isLeapYear y then 1 else 0) := by
  unfold daysBeforeMonth
  by_cases hb : isLeapYear y = true
  · rw [if_pos ⟨by decide, hb⟩, if_pos hb]
    decide
  · rw [if_neg (fun h => hb h.2), if_neg hb]
    decide

theorem daysInMonth_one (y : Nat) : daysInMonth y 1 = 31 := by
  unfold daysInMonth
  rw [if_neg (by decide), if_neg (by decide)]

theorem daysInMonth_twelve (y : Nat) : daysInMonth y 12 = 31 := by
  unfold daysInMonth
  rw [if_neg (by decide), if_neg (by decide)]

theorem nextDay_isValid (d : Date) (h : d.isValid) : (nextDay d).isValid := by
  obtain ⟨hy, hm1, hm2, hd1, hd2⟩ := h
  unfold nextDay
  by_cases c1 : d.day < daysInMonth d.year d.month
  · rw [if_pos c1, isValid_mk]
    exact ⟨hy, hm1, hm2, by omega, by omega⟩
  · rw [if_neg c1]
    by_cases c2 : d.month < 12
    · rw [if_pos c2, isValid_mk]
      exact ⟨hy, by omega, by omega, le_refl 1, daysInMonth_pos _ _⟩
    · rw [if_neg c2, isValid_mk]
      have h31 := daysInMonth_one (d.year + 1)
      exact ⟨by omega, by omega, by omega, by omega, by omega⟩

theorem nextDay_toOrdinal (d : Date) (h : d.isValid) :
    toOrdinal (nextDay d) = toOrdinal d + 1 := by
  obtain ⟨hy, hm1, hm2, hd1, hd2⟩ := h
  have hord : toOrdinal d = daysBeforeYear d.year + daysBeforeMonth d.year d.month + d.day := rfl
  unfold nextDay
  by_cases c1 : d.day < daysInMonth d.year d.month
  · rw [if_pos c1, toOrdinal_mk, hord]
    omega
  · rw [if_neg c1]
    have hde : d.day = daysInMonth d.year d.month := by omega
    by_cases c2 : d.month < 12
    · rw [if_pos c2, toOrdinal_mk, hord]
      have hstep := daysBeforeMonth_step d.year d.month hm1 (by omega)
      omega
    · rw [if_neg c2, toOrdinal_mk, hord]
      have hm12 : d.month = 12 := by omega
      have h31 := daysInMonth_twelve d.year
      have hsucc := daysBeforeYear_succ d.year hy
      have e1 := daysBeforeMonth_one (d.year + 1)
      have e12 := daysBeforeMonth_twelve d.year
      rw [hm12] at hde ⊢
      omega

theorem prevDay_isValid (d : Date) (h : d.isValid) (h2 : 2 ≤ d.year) :
    (prevDay d).isValid := by
  obtain ⟨hy, hm1, hm2, hd1, hd2⟩ := h
  unfold prevDay
  by_cases c1 : 1 < d.day
  · rw [if_pos c1, isValid_mk]
    exact ⟨hy, hm1, hm2, by omega, by omega⟩
  · rw [if_neg c1]
    by_cases c2 : 1 < d.month
    · rw [if_pos c2, isValid_mk]
      exact ⟨hy, by omega, by omega, daysInMonth_pos _ _, le_refl _⟩
    · rw [if_neg c2, isValid_mk]
      have h31 := daysInMonth_twelve (d.year - 1)
      exact ⟨by omega, by omega, by omega, by omega, by omega⟩

theorem prevDay_year_le (d : Date) : d.year ≤ (prevDay d).year + 1 := by
  unfold prevDay
  by_cases c1 : 1 < d.day
  · rw [if_pos c1]
    show d.year ≤ d.year + 1
    omega
  · rw [if_neg c1]
    by_cases c2 : 1 < d.month
    · rw [if_pos c2]
      show d.year ≤ d.year + 1
      omega
    · rw [if_neg c2]
      show d.year ≤ d.year - 1 + 1
      omega

theorem prevDay_toOrdinal (d : Date) (h : d.isValid) (h2 : 2 ≤ d.year) :
    toOrdinal (prevDay d) + 1 = toOrdinal d := by
  obtain ⟨hy, hm1, hm2, hd1, hd2⟩ := h
  have hord : toOrdinal d = daysBeforeYear d.year + daysBeforeMonth d.year d.month + d.day := rfl
  unfold prevDay
  by_cases c1 : 1 < d.day
  · rw [if_pos c1, toOrdinal_mk, hord]
    omega
  · rw [if_neg c1]
    have hde : d.day = 1 := by omega
    by_cases c2 : 1 < d.month
    · rw [if_pos c2, toOrdinal_mk, hord]
      have hstep := daysBeforeMonth_step d.year (d.month - 1) (by omega) (by omega)
      have hmm : d.month - 1 + 1 = d.month := by omega
      rw [hmm] at hstep
      omega
    · rw [if_neg c2, toOrdinal_mk, hord]
      have hm1' : d.month = 1 := by omega
      have hsucc := daysBeforeYear_succ (d.year - 1) (by omega)
      have hyy : d.year - 1 + 1 = d.year := by omega
      rw [hyy] at hsucc
      have e1 := daysBeforeMonth_one d.year
      have e12 := daysBeforeMonth_twelve (d.year - 1)
      have h31 := daysInMonth_twelve (d.year - 1)
      rw [hm1', hde]
      omega

theorem subDays_spec (r : Nat) (d : Date) (h : d.isValid) (hy : r + 1 ≤ d.year) :
    (subDays d r).isValid ∧ toOrdinal (subDays d r) + r = toOrdinal d := by
  induction r generalizing d with
  | zero => exact ⟨h, rfl⟩
  | succ n ih =>
    have hv := prevDay_isValid d h (by omega)
    have hyle := prevDay_year_le d
    have hord := prevDay_toOrdinal d h (by omega)
    have := ih (prevDay d) hv (by omega)
    simp only [subDays]
    exact ⟨this.1, by omega⟩

theorem dateRangeList_length (s : Date) (n : Nat) : (dateRangeList s n).length = n := by
  induction n generalizing s with
  | zero => rfl
  | succ m ih => simp [dateRangeList, ih]

theorem dateRangeList_map_toOrdinal (s : Date) (n : Nat) (h : s.isValid) :
    (dateRangeList s n).map toOrdinal = List.range' (toOrdinal s) n := by
  induction n generalizing s with
  | zero => rfl
  | succ m ih =>
    rw [List.range'_succ]
    simp only [dateRangeList, List.map_cons]
    rw [ih (nextDay s) (nextDay_isValid s h), nextDay_toOrdinal s h]

-- The program model ------------------------------------------------------

/-- Module constant `THRESHOLD_DAYS = 365` of src/new.py. -/
def THRESHOLD_DAYS : Int := 365

/-- Module constant `WINDOW_YEARS = 2` of src/new.py. -/
def WINDOW_YEARS : Nat := 2

/-- One absence interval, the `{'start': date, 'end': date}` dicts the app
stores in `st.session_state.trips`.  The `end` field is named `stop` because
`end` is a Lean keyword. -/
structure Trip where
  start : Date
  stop : Date
deriving DecidableEq, Repr

/-- Python `date.replace(year := y)`: keeps month and day, fails (ValueError)
when the day exceeds the month length in the new year or the year is below 1
(Python also rejects years above 9999, see the module docstring). -/
def replaceYear (d : Date) (y : Nat) : Option Date :=
  if 1 ≤ y ∧ d.day ≤ daysInMonth y d.month then some ⟨y, d.month, d.day⟩ else none

/-- The `try/except` window-start computation of `calculate_days_for_date`
(src/new.py lines 42-45): `target_date.replace(year=target_date.year -
WINDOW_YEARS)`, falling back to the same replacement with `day=28` on
ValueError.  (For a valid target with year > WINDOW_YEARS the fallback
replacement always succeeds, since every month has at least 28 days, so it is
written here as a plain constructor.) -/
def startWindowOf (target : Date) : Date :=
  match replaceYear target (target.year - WINDOW_YEARS) with
  | some d => d
  | none => ⟨target.year - WINDOW_YEARS, target.month, 28⟩

/-- `total_window_days = (target_date - start_window).days` (src/new.py line 47). -/
def totalWindowDaysOf (target : Date) : Int :=
  dateSub target (startWindowOf target)

/-- The loop body accumulator of `calculate_days_for_date` (src/new.py lines
51-59): threads `(days_absent, future_conflict_days)` through the `for trip in
trips` loop.  `today` is `datetime.date.today()` as read on line 58. -/
def absenceLoop (today start_window target : Date) :
    Int × Int → List Trip → Int × Int
  | acc, [] => acc
  | acc, trip :: rest =>
    let effective_start := dateMax trip.start start_window
    let effective_end := dateMin trip.stop target
    let acc' :=
      if toOrdinal effective_start < toOrdinal effective_end then
        let days_out := dateSub effective_end effective_start
        (acc.1 + days_out,
         if toOrdinal today < toOrdinal trip.start then acc.2 + days_out else acc.2)
      else acc
    absenceLoop today start_window target acc' rest

/-- `calculate_days_for_date(target_date, trips)` of src/new.py (lines 41-62),
returning `(days_present, days_absent, future_conflict_days)`.  The source
reads `datetime.date.today()` inside the loop; that single wall-clock read is
threaded in as the explicit `today` parameter. -/
def calculate_days_for_date (today target : Date) (trips : List Trip) :
    Int × Int × Int :=
  let total_window_days := totalWindowDaysOf target
  let acc := absenceLoop today (startWindowOf target) target (0, 0) trips
  (total_window_days - acc.1, acc.1, acc.2)

/-- `add_trip(start, end)` of src/1.py (lines 12-17): on `start > end` it
reports an error (`st.error`) and returns with the collection unchanged;
otherwise it appends the new trip.  The Boolean is the "an error was
surfaced" observation. -/
def add_trip (start stop : Date) (trips : List Trip) : List Trip × Bool :=
  if toOrdinal stop < toOrdinal start then (trips, true)
  else (trips ++ [⟨start, stop⟩], false)

/-- One point of the chart series: the `{"Date": ..., "Days Present": ...}`
records collected in `chart_data` (src/new.py lines 147-151; the constant
`"Safe Line"` field carries no information and is dropped). -/
structure TrendPoint where
  date : Date
  present : Int
deriving DecidableEq, Repr

/-- Which side the previous day's value was on when a crossing fires: the two
disjuncts of the source's crossing test (src/new.py lines 155-156, commented
there as fall-below vs rise-back). -/
inductive Direction where
  | AboveToBelow
  | BelowToAbove
deriving DecidableEq, Repr

/-- One detected crossing: the `cross_points` records of src/new.py (lines
157-161) keep the date (the y-value and label are chart cosmetics); the
direction records which disjunct of the source's test fired. -/
structure Crossing where
  date : Date
  direction : Direction
deriving DecidableEq, Repr

/-- The body of the trend-scan loop (src/new.py lines 145-164): walks the date
range carrying `prev_present`, collecting one TrendPoint per date and a
Crossing whenever `(prev_present >= THRESHOLD_DAYS and curr_present <
THRESHOLD_DAYS) or (prev_present < THRESHOLD_DAYS and curr_present >=
THRESHOLD_DAYS)`. -/
def scanLoop (today : Date) (thr : Int) (trips : List Trip) :
    Int → List Date → List TrendPoint × List Crossing
  | _, [] => ([], [])
  | prev, d :: rest =>
    let curr := (calculate_days_for_date today d trips).1
    let cross : List Crossing :=
      if thr ≤ prev ∧ curr < thr then [⟨d, Direction.AboveToBelow⟩]
      else if prev < thr ∧ thr ≤ curr then [⟨d, Direction.BelowToAbove⟩]
      else []
    let tail := scanLoop today thr trips curr rest
    (⟨d, curr⟩ :: tail.1, cross ++ tail.2)

/-- The module-level trend scan of src/new.py (lines 134-164): dates from
`target_date - days_range` to `target_date + days_range` (source fixes
`days_range = 120` and threshold `THRESHOLD_DAYS`; both are parameters here,
per the spec's `scan(centerDate, radiusDays, ...)` signature), with
`prev_present` seeded from one evaluation at the first date of the range
(line 145) before the loop runs over the whole range. -/
def scan (today : Date) (thr : Int) (center : Date) (radius : Nat)
    (trips : List Trip) : List TrendPoint × List Crossing :=
  let dates := dateRangeList (subDays center radius) (2 * radius + 1)
  let prev0 :=
    match dates with
    | [] => 0
    | d0 :: _ => (calculate_days_for_date today d0 trips).1
  scanLoop today thr trips prev0 dates

-- Specification-side definitions (stated from the spec's wording, to be
-- compared against the code-derived definitions above) --------------------

/-- Days one trip deducts, as the spec words it: `min(interval.end,
targetDate) - max(interval.start, windowStart)`, counted only when strictly
positive. -/
def specDeduction (start_window target : Date) (t : Trip) : Int :=
  let v := dateSub (dateMin t.stop target) (dateMax t.start start_window)
  if 0 < v then v else 0

/-- Days one trip contributes to `futureConflictDays`, as the spec words it:
its deduction when `interval.start` is later than "now", else nothing. -/
def specFutureDeduction (today start_window target : Date) (t : Trip) : Int :=
  if toOrdinal today < toOrdinal t.start then specDeduction start_window target t
  else 0

/-- The crossing test between a previous presence value and the current trend
point, as the spec words it: fire when `(previous >= thresholdDays) !=
(current >= thresholdDays)`, at the current date, with direction given by the
side the previous value was on. -/
def crossingStep (thr prev : Int) (c : TrendPoint) : Option Crossing :=
  if thr ≤ prev ∧ c.present < thr then some ⟨c.date, Direction.AboveToBelow⟩
  else if prev < thr ∧ thr ≤ c.present then some ⟨c.date, Direction.BelowToAbove⟩
  else none

/-- The crossings a series determines, as the spec words it: one comparison
per consecutive pair of TrendPoints, emitted at the second point's date; the
first point of the series has no predecessor and yields nothing. -/
def crossingsFromSeries (thr : Int) (series : List TrendPoint) : List Crossing :=
  (series.zip series.tail).filterMap fun pc => crossingStep thr pc.1.present pc.2

-- Characterization lemmas -------------------------------------------------

theorem specDeduction_eq_branch (sw target : Date) (t : Trip) :
    specDeduction sw target t =
      if toOrdinal (dateMax t.start sw) < toOrdinal (dateMin t.stop target)
      then dateSub (dateMin t.stop target) (dateMax t.start sw) else 0 := by
  unfold specDeduction dateSub
  by_cases hg : toOrdinal (dateMax t.start sw) < toOrdinal (dateMin t.stop target)
  · rw [if_pos hg, if_pos (by omega)]
  · rw [if_neg hg, if_neg (by omega)]

theorem absenceLoop_eq (today sw target : Date) (trips : List Trip) :
    ∀ acc : Int × Int,
      absenceLoop today sw target acc trips =
        (acc.1 + (trips.map (specDeduction sw target)).sum,
         acc.2 + (trips.map (specFutureDeduction today sw target)).sum) := by
  induction trips with
  | nil => intro acc; simp [absenceLoop]
  | cons t rest ih =>
    intro acc
    have hd := specDeduction_eq_branch sw target t
    simp only [absenceLoop, List.map_cons, List.sum_cons, ih]
    unfold specFutureDeduction
    by_cases hg : toOrdinal (dateMax t.start sw) < toOrdinal (dateMin t.stop target)
    · rw [if_pos hg] at hd
      rw [if_pos hg]
      by_cases hf : toOrdinal today < toOrdinal t.start
      · rw [if_pos hf, if_pos hf]
        simp only [hd]
        rw [Prod.mk.injEq]
        constructor <;> ring
      · rw [if_neg hf, if_neg hf]
        simp only [hd]
        rw [Prod.mk.injEq]
        constructor <;> ring
    · rw [if_neg hg] at hd
      rw [if_neg hg, hd]
      by_cases hf : toOrdinal today < toOrdinal t.start
      · rw [if_pos hf]
        simp
      · rw [if_neg hf]
        simp

theorem calculate_eq (today target : Date) (trips : List Trip) :
    calculate_days_for_date today target trips =
      (totalWindowDaysOf target -
         (trips.map (specDeduction (startWindowOf target) target)).sum,
       (trips.map (specDeduction (startWindowOf target) target)).sum,
       (trips.map (specFutureDeduction today (startWindowOf target) target)).sum) := by
  unfold calculate_days_for_date
  rw [absenceLoop_eq]
  simp

/-- The present-days value the scan reads at each date. -/
def presentAt (today : Date) (trips : List Trip) (d : Date) : Int :=
  (calculate_days_for_date today d trips).1

/-- The TrendPoint the scan records at each date. -/
def pointAt (today : Date) (trips : List Trip) (d : Date) : TrendPoint :=
  ⟨d, presentAt today trips d⟩

/-- Crossings of a point list relative to a running previous value. -/
def crossAux (thr : Int) : Int → List TrendPoint → List Crossing
  | _, [] => []
  | prev, c :: rest => (crossingStep thr prev c).toList ++ crossAux thr c.present rest

theorem crossingStep_toList (thr prev : Int) (c : TrendPoint) :
    (crossingStep thr prev c).toList =
      if thr ≤ prev ∧ c.present < thr then [⟨c.date, Direction.AboveToBelow⟩]
      else if prev < thr ∧ thr ≤ c.present then [⟨c.date, Direction.BelowToAbove⟩]
      else [] := by
  unfold crossingStep
  by_cases h1 : thr ≤ prev ∧ c.present < thr
  · rw [if_pos h1, if_pos h1]; rfl
  · rw [if_neg h1, if_neg h1]
    by_cases h2 : prev < thr ∧ thr ≤ c.present
    · rw [if_pos h2, if_pos h2]; rfl
    · rw [if_neg h2, if_neg h2]; rfl

theorem TrendPoint.present_mk (d : Date) (x : Int) :
    (TrendPoint.mk d x).present = x := rfl

theorem crossingStep_self (thr x : Int) (d : Date) :
    crossingStep thr x ⟨d, x⟩ = none := by
  simp only [crossingStep, TrendPoint.present_mk]
  rw [if_neg (by omega : ¬ (thr ≤ x ∧ x < thr)),
    if_neg (by omega : ¬ (x < thr ∧ thr ≤ x))]

theorem crossingStep_date (thr prev : Int) (c : TrendPoint) (cr : Crossing)
    (h : crossingStep thr prev c = some cr) : cr.date = c.date := by
  unfold crossingStep at h
  by_cases h1 : thr ≤ prev ∧ c.present < thr
  · rw [if_pos h1] at h
    cases h; rfl
  · rw [if_neg h1] at h
    by_cases h2 : prev < thr ∧ thr ≤ c.present
    · rw [if_pos h2] at h
      cases h; rfl
    · rw [if_neg h2] at h
      cases h

theorem scanLoop_eq (today : Date) (thr : Int) (trips : List Trip) :
    ∀ (dates : List Date) (prev : Int),
      scanLoop today thr trips prev dates =
        (dates.map (pointAt today trips),
         crossAux thr prev (dates.map (pointAt today trips))) := by
  intro dates
  induction dates with
  | nil => intro prev; rfl
  | cons d rest ih =>
    intro prev
    simp only [scanLoop, List.map_cons, ih, crossAux, crossingStep_toList]
    rfl

theorem filterMap_cons_toList {α β : Type} (f : α → Option β) (x : α) (xs : List α) :
    (x :: xs).filterMap f = (f x).toList ++ xs.filterMap f := by
  cases h : f x <;> simp [List.filterMap_cons, h]

theorem crossAux_eq_fromSeries (thr : Int) :
    ∀ (l : List TrendPoint) (p : TrendPoint),
      crossAux thr p.present l = crossingsFromSeries thr (p :: l) := by
  intro l
  induction l with
  | nil => intro p; rfl
  | cons c rest ih =>
    intro p
    unfold crossingsFromSeries
    simp only [List.tail_cons, List.zip_cons_cons]
    rw [filterMap_cons_toList]
    show (crossingStep thr p.present c).toList ++ crossAux thr c.present rest = _
    rw [ih c]
    unfold crossingsFromSeries
    simp only [List.tail_cons, List.zip_cons_cons]

theorem scan_fst (today : Date) (thr : Int) (center : Date) (radius : Nat)
    (trips : List Trip) :
    (scan today thr center radius trips).1 =
      (dateRangeList (subDays center radius) (2 * radius + 1)).map
        (pointAt today trips) := by
  unfold scan
  rw [scanLoop_eq]

theorem scan_snd (today : Date) (thr : Int) (center : Date) (radius : Nat)
    (trips : List Trip) :
    (scan today thr center radius trips).2 =
      crossingsFromSeries thr (scan today thr center radius trips).1 := by
  rw [scan_fst]
  unfold scan
  simp only [dateRangeList, List.map_cons]
  rw [scanLoop_eq]
  simp only [List.map_cons]
  show (crossingStep thr (presentAt today trips (subDays center radius))
          (pointAt today trips (subDays center radius))).toList ++
        crossAux thr (pointAt today trips (subDays center radius)).present _ = _
  rw [show crossingStep thr (presentAt today trips (subDays center radius))
        (pointAt today trips (subDays center radius)) = none from
      crossingStep_self thr (presentAt today trips (subDays center radius)) _]
  rw [crossAux_eq_fromSeries]
  rfl

theorem crossings_dates_sublist (thr : Int) :
    ∀ series : List TrendPoint,
      ((crossingsFromSeries thr series).map Crossing.date).Sublist
        (series.tail.map TrendPoint.date) := by
  intro series
  induction series with
  | nil => simp [crossingsFromSeries]
  | cons p l ih =>
    cases l with
    | nil => simp [crossingsFromSeries]
    | cons c rest =>
      have hstep : crossingsFromSeries thr (p :: c :: rest) =
          (crossingStep thr p.present c).toList ++ crossingsFromSeries thr (c :: rest) := by
        unfold crossingsFromSeries
        simp only [List.tail_cons, List.zip_cons_cons]
        rw [filterMap_cons_toList]
      rw [hstep]
      simp only [List.tail_cons, List.map_cons, List.map_append]
      cases h : crossingStep thr p.present c with
      | none =>
        simp only [h, Option.toList_none, List.map_nil, List.nil_append]
        exact (List.tail_cons ▸ ih).cons c.date
      | some cr =>
        have hd := crossingStep_date thr p.present c cr h
        simp only [h, Option.toList_some, List.map_cons, List.map_nil, List.cons_append,
          List.nil_append, hd]
        exact (List.tail_cons ▸ ih).cons₂ c.date

-- Auxiliary bound lemmas for the invariant claim ---------------------------

theorem specDeduction_nonneg (sw target : Date) (t : Trip) :
    0 ≤ specDeduction sw target t := by
  show (0 : Int) ≤
    if 0 < dateSub (dateMin t.stop target) (dateMax t.start sw) then
      dateSub (dateMin t.stop target) (dateMax t.start sw) else 0
  split <;> omega

theorem specFutureDeduction_nonneg (today sw target : Date) (t : Trip) :
    0 ≤ specFutureDeduction today sw target t := by
  unfold specFutureDeduction
  split
  · exact specDeduction_nonneg sw target t
  · exact le_refl 0

theorem specFutureDeduction_le (today sw target : Date) (t : Trip) :
    specFutureDeduction today sw target t ≤ specDeduction sw target t := by
  unfold specFutureDeduction
  split
  · exact le_refl _
  · exact specDeduction_nonneg sw target t

/-- Evaluation observed together with the trip store it was handed: the
source's loop (src/new.py lines 51-59) only reads `trip['start']` and
`trip['end']` and assigns only its local accumulators, so the host-owned
collection comes out of an evaluation exactly as it went in; this definition
pairs the result with that store so the purity claim can be stated. -/
def evaluateWithStore (today target : Date) (trips : List Trip) :
    (Int × Int × Int) × List Trip :=
  (calculate_days_for_date today target trips, trips)

-- Claim theorems -----------------------------------------------------------

/-- C1: for every target date and interval collection, `daysAbsent` is the sum
over all intervals of `min(interval.end, targetDate) - max(interval.start,
windowStart)`, counted only when that clamped difference is strictly positive
(intervals outside the window or with zero-length overlap contribute nothing),
and overlapping intervals double-count: two coincident 10-day intervals deduct
20 days. -/
theorem claim_c1_absent_is_clamped_sum :
    (∀ (today target : Date) (trips : List Trip),
        (calculate_days_for_date today target trips).2.1 =
          (trips.map (fun t =>
            let v := dateSub (dateMin t.stop target)
              (dateMax t.start (startWindowOf target))
            if 0 < v then v else 0)).sum) ∧
      (calculate_days_for_date ⟨2025, 6, 1⟩ ⟨2025, 1, 1⟩
          [⟨⟨2024, 3, 1⟩, ⟨2024, 3, 11⟩⟩, ⟨⟨2024, 3, 1⟩, ⟨2024, 3, 11⟩⟩]).2.1 = 20 := by
  constructor
  · intro today target trips
    rw [calculate_eq]
    rfl
  · decide

/-- C3: `daysPresent + daysAbsent = totalWindowDays` on every input (no floor
at zero), and on an input whose absences exceed the window, `daysPresent` is
negative. -/
theorem claim_c3_present_absent_identity :
    (∀ (today target : Date) (trips : List Trip),
        (calculate_days_for_date today target trips).1 +
            (calculate_days_for_date today target trips).2.1 =
          totalWindowDaysOf target) ∧
      (calculate_days_for_date ⟨2025, 6, 1⟩ ⟨2025, 6, 1⟩
          [⟨⟨2023, 6, 1⟩, ⟨2025, 6, 1⟩⟩, ⟨⟨2023, 6, 1⟩, ⟨2025, 6, 1⟩⟩]).1 < 0 := by
  constructor
  · intro today target trips
    rw [calculate_eq]
    ring
  · decide

/-- C6: the days a trip whose start lies strictly after "now" contributes to
`daysAbsent` accumulate into `futureConflictDays` as well (and only those); in
particular with now = 2025-06-01, the single interval 2026-01-01..2026-02-01
and target 2026-03-01 give `futureConflictDays = 31`, the full deduction. -/
theorem claim_c6_future_conflict_days :
    (∀ (today target : Date) (trips : List Trip),
        (calculate_days_for_date today target trips).2.2 =
          (trips.map (fun t =>
            if toOrdinal today < toOrdinal t.start then
              specDeduction (startWindowOf target) target t
            else 0)).sum) ∧
      ((calculate_days_for_date ⟨2025, 6, 1⟩ ⟨2026, 3, 1⟩
          [⟨⟨2026, 1, 1⟩, ⟨2026, 2, 1⟩⟩]).2.2 = 31 ∧
        (calculate_days_for_date ⟨2025, 6, 1⟩ ⟨2026, 3, 1⟩
          [⟨⟨2026, 1, 1⟩, ⟨2026, 2, 1⟩⟩]).2.1 = 31) := by
  refine ⟨fun today target trips => ?_, by decide, by decide⟩
  rw [calculate_eq]
  rfl

/-- C7: reordering the interval collection never changes the evaluation
result: permuted inputs give identical `daysPresent`, `daysAbsent` and
`futureConflictDays`. -/
theorem claim_c7_permutation_invariant (today target : Date)
    (trips trips' : List Trip) (h : trips.Perm trips') :
    calculate_days_for_date today target trips =
      calculate_days_for_date today target trips' := by
  rw [calculate_eq, calculate_eq,
    (h.map (specDeduction (startWindowOf target) target)).sum_eq,
    (h.map (specFutureDeduction today (startWindowOf target) target)).sum_eq]

/-- Witness for C7 at a concrete swapped pair of trips. -/
theorem claim_c7_witness :
    calculate_days_for_date ⟨2025, 6, 1⟩ ⟨2025, 6, 1⟩
        [⟨⟨2024, 1, 1⟩, ⟨2024, 2, 1⟩⟩, ⟨⟨2023, 7, 1⟩, ⟨2023, 8, 1⟩⟩] =
      calculate_days_for_date ⟨2025, 6, 1⟩ ⟨2025, 6, 1⟩
        [⟨⟨2023, 7, 1⟩, ⟨2023, 8, 1⟩⟩, ⟨⟨2024, 1, 1⟩, ⟨2024, 2, 1⟩⟩] :=
  claim_c7_permutation_invariant ⟨2025, 6, 1⟩ ⟨2025, 6, 1⟩ _ _
    (List.Perm.swap (⟨⟨2023, 7, 1⟩, ⟨2023, 8, 1⟩⟩ : Trip)
      (⟨⟨2024, 1, 1⟩, ⟨2024, 2, 1⟩⟩ : Trip) [])

/-- C9: evaluation is pure for a fixed "now": it returns the trip store
unchanged, and re-running it on the store a first run left behind returns the
identical result. -/
theorem claim_c9_pure_evaluation (today target : Date) (trips : List Trip) :
    (evaluateWithStore today target trips).2 = trips ∧
      (evaluateWithStore today target
          (evaluateWithStore today target trips).2).1 =
        (evaluateWithStore today target trips).1 :=
  ⟨rfl, rfl⟩

/-- C10: `0 ≤ futureConflictDays ≤ daysAbsent` on every input:
`futureConflictDays` only accumulates day counts simultaneously added to
`daysAbsent`. -/
theorem claim_c10_future_conflict_bounds (today target : Date)
    (trips : List Trip) :
    0 ≤ (calculate_days_for_date today target trips).2.2 ∧
      (calculate_days_for_date today target trips).2.2 ≤
        (calculate_days_for_date today target trips).2.1 := by
  rw [calculate_eq]
  constructor
  · refine List.sum_nonneg ?_
    intro x hx
    obtain ⟨t, _, rfl⟩ := List.mem_map.mp hx
    exact specFutureDeduction_nonneg today _ target t
  · refine List.sum_le_sum ?_
    intro t _
    exact specFutureDeduction_le today _ target t

theorem daysInMonth_two (y : Nat) :
    daysInMonth y 2 = if isLeapYear y then 29 else 28 := by
  unfold daysInMonth
  rw [if_pos rfl]

theorem daysInMonth_ne_two (y z m : Nat) (hm : ¬ m = 2) :
    daysInMonth y m = daysInMonth z m := by
  unfold daysInMonth
  rw [if_neg hm, if_neg hm]

/-- C2: the window start is the target date with its year reduced by
`WINDOW_YEARS`, except that a Feb 29 target whose window-start year is not a
leap year has its day clamped to 28 (so 2024-02-29 yields 2022-02-28), and
`totalWindowDays` is the integer day count from the window start to the
target. -/
theorem claim_c2_window_start :
    (∀ target : Date, target.isValid → WINDOW_YEARS < target.year →
        startWindowOf target =
          (if target.month = 2 ∧ target.day = 29 ∧
              isLeapYear (target.year - WINDOW_YEARS) = false then
            ⟨target.year - WINDOW_YEARS, target.month, 28⟩
          else ⟨target.year - WINDOW_YEARS, target.month, target.day⟩) ∧
        totalWindowDaysOf target = dateSub target (startWindowOf target)) ∧
      startWindowOf ⟨2024, 2, 29⟩ = ⟨2022, 2, 28⟩ := by
  constructor
  · intro target hv hy
    obtain ⟨h1, h2, h3, h4, h5⟩ := hv
    refine ⟨?_, rfl⟩
    unfold startWindowOf replaceYear
    by_cases hc : target.month = 2 ∧ target.day = 29 ∧
        isLeapYear (target.year - WINDOW_YEARS) = false
    · obtain ⟨hm, hd, hl⟩ := hc
      have hdim : daysInMonth (target.year - WINDOW_YEARS) target.month = 28 := by
        rw [hm, daysInMonth_two, if_neg (by simp [hl])]
      have hguard : ¬ (1 ≤ target.year - WINDOW_YEARS ∧
          target.day ≤ daysInMonth (target.year - WINDOW_YEARS) target.month) := by
        intro hg
        omega
      rw [if_neg hguard, if_pos ⟨hm, hd, hl⟩]
    · have hguard : 1 ≤ target.year - WINDOW_YEARS ∧
          target.day ≤ daysInMonth (target.year - WINDOW_YEARS) target.month := by
        refine ⟨by omega, ?_⟩
        by_cases hm : target.month = 2
        · rw [hm] at h5 ⊢
          have hty := daysInMonth_two target.year
          have hwy := daysInMonth_two (target.year - WINDOW_YEARS)
          rcases Bool.eq_false_or_eq_true (isLeapYear (target.year - WINDOW_YEARS)) with hb | hb
          · rw [if_pos hb] at hwy
            rcases Bool.eq_false_or_eq_true (isLeapYear target.year) with hb' | hb'
            · rw [if_pos hb'] at hty
              omega
            · rw [if_neg (by simp [hb'])] at hty
              omega
          · have hne : ¬ target.day = 29 := fun hd => hc ⟨hm, hd, hb⟩
            rw [if_neg (by simp [hb])] at hwy
            rcases Bool.eq_false_or_eq_true (isLeapYear target.year) with hb' | hb'
            · rw [if_pos hb'] at hty
              omega
            · rw [if_neg (by simp [hb'])] at hty
              omega
        · rw [daysInMonth_ne_two (target.year - WINDOW_YEARS) target.year target.month hm]
          exact h5
      rw [if_pos hguard, if_neg hc]
  · decide

/-- Witness for C2 at the leap-day target 2024-02-29. -/
theorem claim_c2_witness :
    startWindowOf ⟨2024, 2, 29⟩ = ⟨2022, 2, 28⟩ ∧
      totalWindowDaysOf ⟨2024, 2, 29⟩ =
        dateSub ⟨2024, 2, 29⟩ (startWindowOf ⟨2024, 2, 29⟩) := by
  have h := claim_c2_window_start.1 ⟨2024, 2, 29⟩ (by decide) (by decide)
  exact ⟨h.1.trans (by decide), h.2⟩

/-- C4: a CrossingEvent is emitted at a date exactly when that date has a
predecessor in the scanned range and the previous `daysPresent` sits on the
other side of the threshold than the current one, with direction given by the
previous value's side; the first date of the range never produces a crossing,
since the previous value is seeded from one evaluation at that same date
before the loop runs.  Stated as: the crossings list equals exactly the
consecutive-pair crossings of the produced series. -/
theorem claim_c4_crossing_iff (today : Date) (thr : Int) (center : Date)
    (radius : Nat) (trips : List Trip) :
    (scan today thr center radius trips).2 =
      crossingsFromSeries thr (scan today thr center radius trips).1 :=
  scan_snd today thr center radius trips

/-- C5: the scan produces exactly `2*radiusDays + 1` TrendPoints, one per
calendar day with strictly consecutive dates and no gaps, starting
`radiusDays` days before the center date, and the crossing dates form a
subsequence of the dates of the series after its first point. -/
theorem claim_c5_series_shape (today : Date) (thr : Int) (center : Date)
    (radius : Nat) (trips : List Trip) (hv : center.isValid)
    (hy : radius + 1 ≤ center.year) :
    (scan today thr center radius trips).1.length = 2 * radius + 1 ∧
      (scan today thr center radius trips).1.map (fun p => toOrdinal p.date) =
        List.range' (toOrdinal (subDays center radius)) (2 * radius + 1) ∧
      toOrdinal (subDays center radius) + radius = toOrdinal center ∧
      ((scan today thr center radius trips).2.map Crossing.date).Sublist
        ((scan today thr center radius trips).1.tail.map TrendPoint.date) := by
  have hsub := subDays_spec radius center hv hy
  refine ⟨?_, ?_, hsub.2, ?_⟩
  · rw [scan_fst, List.length_map, dateRangeList_length]
  · rw [scan_fst, List.map_map]
    have hfun : ((fun p : TrendPoint => toOrdinal p.date) ∘ pointAt today trips) =
        toOrdinal := funext fun d => rfl
    rw [hfun, dateRangeList_map_toOrdinal _ _ hsub.1]
  · rw [scan_snd]
    exact crossings_dates_sublist thr _

/-- Witness for C5 at a concrete scan of radius 1 around 2025-06-01. -/
theorem claim_c5_witness :
    Date.isValid ⟨2025, 6, 1⟩ ∧ 1 + 1 ≤ (Date.mk 2025 6 1).year ∧
      ((scan ⟨2025, 1, 1⟩ 365 ⟨2025, 6, 1⟩ 1 []).1.length = 2 * 1 + 1 ∧
        (scan ⟨2025, 1, 1⟩ 365 ⟨2025, 6, 1⟩ 1 []).1.map (fun p => toOrdinal p.date) =
          List.range' (toOrdinal (subDays ⟨2025, 6, 1⟩ 1)) (2 * 1 + 1) ∧
        toOrdinal (subDays ⟨2025, 6, 1⟩ 1) + 1 = toOrdinal ⟨2025, 6, 1⟩ ∧
        ((scan ⟨2025, 1, 1⟩ 365 ⟨2025, 6, 1⟩ 1 []).2.map Crossing.date).Sublist
          ((scan ⟨2025, 1, 1⟩ 365 ⟨2025, 6, 1⟩ 1 []).1.tail.map TrendPoint.date)) :=
  ⟨by decide, by decide,
    claim_c5_series_shape ⟨2025, 1, 1⟩ 365 ⟨2025, 6, 1⟩ 1 [] (by decide) (by decide)⟩

/-- C8: an interval with `start > end` is rejected at creation time —
`add_trip` surfaces an error and leaves the collection unchanged — while an
interval with `start <= end` is appended; and evaluation applies no interval
validation of its own: it computes a result even on an inverted interval (it
has no error outcome at all). -/
theorem claim_c8_add_trip_validation :
    (∀ (s e : Date) (trips : List Trip),
        (toOrdinal e < toOrdinal s → add_trip s e trips = (trips, true)) ∧
        (¬ toOrdinal e < toOrdinal s →
          add_trip s e trips = (trips ++ [⟨s, e⟩], false))) ∧
      calculate_days_for_date ⟨2025, 1, 1⟩ ⟨2025, 6, 1⟩
          [⟨⟨2024, 5, 1⟩, ⟨2024, 4, 1⟩⟩] = (731, 0, 0) := by
  refine ⟨fun s e trips => ⟨fun h => ?_, fun h => ?_⟩, by decide⟩
  · unfold add_trip
    rw [if_pos h]
  · unfold add_trip
    rw [if_neg h]

/-- Witness for C8: one rejected and one accepted insertion. -/
theorem claim_c8_witness :
    add_trip ⟨2025, 1, 2⟩ ⟨2025, 1, 1⟩ [] = ([], true) ∧
      add_trip ⟨2025, 1, 1⟩ ⟨2025, 1, 2⟩ [] =
        ([⟨⟨2025, 1, 1⟩, ⟨2025, 1, 2⟩⟩], false) :=
  ⟨(claim_c8_add_trip_validation.1 ⟨2025, 1, 2⟩ ⟨2025, 1, 1⟩ []).1 (by decide),
   (claim_c8_add_trip_validation.1 ⟨2025, 1, 1⟩ ⟨2025, 1, 2⟩ []).2 (by decide)⟩
